import Mathlib

/-!
Verification of the collaborative chat/document client in this repository.

The development shallowly embeds the parts of the code the claims are about:

* the attribution engine (`mergeAttribution`, `computeCharAttribution`,
  `ensureAttributionMatchesContent`) from
  `src/webui/src/routes/+page.svelte`;
* the commit ingestor (`persistCommitsForChannel`) from the same file,
  together with the SQLite-backed store operations it calls
  (`saveMessage`, `saveChannelDocument` from
  `src/webui/src/sqliteService.ts`; the history-entry and last-modified
  writes are modelled from the spec because their implementation is not
  part of the sources);
* the subscription broker (`BeelayHandler.broadcast` /
  `registerClientTarget` from `src/unnamed/part_004`);
* the history navigator (`historyIndex` reactive clamp,
  `handleHistorySliderChange`, `handleRestoreVersion`);
* the channel-switching state relevant to debounce cancellation
  (`selectChannel`, `scheduleDocumentSync`, `leaveChannel`).

Strings are modelled by Lean `String`, character sequences by `List Char`
(the code's `Array.from(value)`), and machine timestamps by `Nat`.
-/

namespace Crdt

/-- One attributed character: `{char, author}` in the source. -/
structure CharAttribution where
  char : Char
  author : String
  deriving Repr, DecidableEq

/-- The character sequence of an attribution
(`previous.map((item) => item.char)` in the source). -/
def charsOf (attribution : List CharAttribution) : List Char :=
  attribution.map (fun item => item.char)

/-- One right-to-left pass of the inner `j` loop filling a row of the
suffix LCS table `dp` in `mergeAttribution`: given `below = dp[i+1]`
restricted to the suffix of `nextChars` under consideration, produce
`dp[i]` for prefix character `p`. `dp[i][j] = dp[i+1][j+1] + 1` on a
match and `max(dp[i+1][j], dp[i][j+1])` otherwise. -/
def nextRow (p : Char) : List Char → List Nat → List Nat
  | [], _ => [0]
  | c :: cs, below =>
      let rest := nextRow p cs below.tail
      (if p = c then below.tail.headD 0 + 1
       else max (below.headD 0) (rest.headD 0)) :: rest

/-- The rows of the `dp` table, built bottom-up over the suffixes of the
previous character list exactly as the outer `i` loop does. -/
def dpRow : List Char → List Char → List Nat
  | [], next => List.replicate (next.length + 1) 0
  | p :: ps, next => nextRow p next (dpRow ps next)

/-- `dp[i][j]` read off for the pair of suffixes the walk is standing on:
the length of the longest common subsequence of the two suffixes. -/
def lcsLen (prev next : List Char) : Nat :=
  (dpRow prev next).headD 0

/-- The alignment walk of `mergeAttribution` (the `while` loops after the
table is filled): on a match carry the prior author forward; on a
mismatch drop the previous character when `dp[i+1][j] >= dp[i][j+1]`,
otherwise emit the new character attributed to `fallbackAuthor`;
trailing new characters go to `fallbackAuthor`. -/
def mergeWalk (fallbackAuthor : String) :
    List CharAttribution → List Char → List CharAttribution
  | [], next => next.map (fun char => ⟨char, fallbackAuthor⟩)
  | _ :: _, [] => []
  | p :: ps, c :: cs =>
      if p.char = c then
        ⟨c, p.author⟩ :: mergeWalk fallbackAuthor ps cs
      else if lcsLen (charsOf ps) (c :: cs) ≥ lcsLen (charsOf (p :: ps)) cs then
        mergeWalk fallbackAuthor ps (c :: cs)
      else
        ⟨c, fallbackAuthor⟩ :: mergeWalk fallbackAuthor (p :: ps) cs
  termination_by prev next => prev.length + next.length
  decreasing_by all_goals (simp only [List.length_cons]; omega)

/-- `mergeAttribution(previous, nextChars, fallbackAuthor)` from
`src/webui/src/routes/+page.svelte`: an empty previous attribution maps
everything to the fallback author, otherwise the LCS walk runs. -/
def mergeAttribution (previous : List CharAttribution) (nextChars : List Char)
    (fallbackAuthor : String) : List CharAttribution :=
  if previous = [] then nextChars.map (fun char => ⟨char, fallbackAuthor⟩)
  else mergeWalk fallbackAuthor previous nextChars

/-- A document history entry as the attribution engine consumes it
(`DocumentCommitEntry`): author, full-text content, timestamp. -/
structure DocumentCommitEntry where
  user : String
  content : String
  timestamp : Nat
  deriving Repr, DecidableEq

/-- `computeCharAttribution(entries)`: fold `mergeAttribution` over the
entries; an entry with empty (falsy) content resets the running
attribution, an empty running attribution seeds from the entry. -/
def computeCharAttribution (entries : List DocumentCommitEntry) :
    List CharAttribution :=
  entries.foldl
    (fun attribution entry =>
      if entry.content = "" then []
      else
        let chars := entry.content.toList
        if attribution = [] then chars.map (fun char => ⟨char, entry.user⟩)
        else mergeAttribution attribution chars entry.user)
    []

/-- `ensureAttributionMatchesContent(base, content, fallbackAuthor)`. -/
def ensureAttributionMatchesContent (base : List CharAttribution)
    (content : String) (fallbackAuthor : String) : List CharAttribution :=
  let contentChars := content.toList
  if base = [] ∧ contentChars = [] then []
  else mergeAttribution base contentChars fallbackAuthor

@[simp] theorem charsOf_nil : charsOf [] = [] := rfl

@[simp] theorem charsOf_cons (p : CharAttribution) (ps : List CharAttribution) :
    charsOf (p :: ps) = p.char :: charsOf ps := rfl

@[simp] theorem charsOf_map_mk (author : String) (l : List Char) :
    charsOf (l.map (fun char => ({ char := char, author := author } : CharAttribution))) = l := by
  induction l with
  | nil => rfl
  | cons c cs ih => simpa [charsOf] using ih

theorem mergeWalk_chars (fb : String) (prev : List CharAttribution)
    (next : List Char) : charsOf (mergeWalk fb prev next) = next := by
  induction prev, next using mergeWalk.induct fb with
  | case1 next => simp [mergeWalk]
  | case2 p ps => simp [mergeWalk]
  | case3 p ps cs ih => simp [mergeWalk, ih]
  | case4 p ps c cs hne hge ih =>
      simp only [mergeWalk]
      rw [if_neg hne, if_pos hge]
      exact ih
  | case5 p ps c cs hne hge ih =>
      simp only [mergeWalk]
      rw [if_neg hne, if_neg hge]
      simp [ih]

theorem mergeWalk_authors (fb : String) (prev : List CharAttribution)
    (next : List Char) :
    ∀ x ∈ mergeWalk fb prev next,
      x.author = fb ∨ x.author ∈ prev.map (fun item => item.author) := by
  induction prev, next using mergeWalk.induct fb with
  | case1 next =>
      intro x hx
      simp only [mergeWalk, List.mem_map] at hx
      obtain ⟨c, -, rfl⟩ := hx
      exact Or.inl rfl
  | case2 p ps =>
      intro x hx
      simp [mergeWalk] at hx
  | case3 p ps cs ih =>
      intro x hx
      simp only [mergeWalk, if_pos rfl] at hx
      rcases List.mem_cons.mp hx with h | hx
      · exact Or.inr (by simp [h])
      · rcases ih x hx with h | h
        · exact Or.inl h
        · exact Or.inr (by simp [h])
  | case4 p ps c cs hne hge ih =>
      intro x hx
      simp only [mergeWalk] at hx
      rw [if_neg hne, if_pos hge] at hx
      rcases ih x hx with h | h
      · exact Or.inl h
      · exact Or.inr (by simp [h])
  | case5 p ps c cs hne hge ih =>
      intro x hx
      simp only [mergeWalk] at hx
      rw [if_neg hne, if_neg hge] at hx
      rcases List.mem_cons.mp hx with h | hx
      · subst h
        exact Or.inl rfl
      · exact ih x hx

theorem mergeWalk_self (fb : String) (attrib : List CharAttribution) :
    mergeWalk fb attrib (charsOf attrib) = attrib := by
  induction attrib with
  | nil => simp [mergeWalk, charsOf]
  | cons p ps ih => simp [mergeWalk, ih]

theorem mergeAttribution_chars (prev : List CharAttribution)
    (next : List Char) (fb : String) :
    charsOf (mergeAttribution prev next fb) = next := by
  unfold mergeAttribution
  split
  · simp
  · exact mergeWalk_chars fb prev next

theorem computeCharAttribution_concat_chars (es : List DocumentCommitEntry)
    (e : DocumentCommitEntry) :
    charsOf (computeCharAttribution (es ++ [e])) = e.content.toList := by
  unfold computeCharAttribution
  rw [List.foldl_append]
  simp only [List.foldl_cons, List.foldl_nil]
  set attribution := List.foldl _ ([] : List CharAttribution) es
  by_cases hc : e.content = ""
  · simp [hc, charsOf]
  · rw [if_neg hc]
    by_cases ha : attribution = []
    · simp [ha]
    · rw [if_neg ha]
      exact mergeAttribution_chars _ _ _

theorem ensureAttributionMatchesContent_of_chars (base : List CharAttribution)
    (content : String) (fb : String) (h : charsOf base = content.toList) :
    ensureAttributionMatchesContent base content fb = base := by
  unfold ensureAttributionMatchesContent
  by_cases hb : base = []
  · subst hb
    simp only [charsOf_nil] at h
    rw [if_pos ⟨rfl, h.symm⟩]
  · rw [if_neg (fun hand => hb hand.1)]
    unfold mergeAttribution
    rw [if_neg hb, ← h]
    exact mergeWalk_self fb base

@[simp] theorem charsOf_length (l : List CharAttribution) :
    (charsOf l).length = l.length := List.length_map l _

theorem mergeAttribution_length (prev : List CharAttribution)
    (next : List Char) (fb : String) :
    (mergeAttribution prev next fb).length = next.length := by
  rw [← charsOf_length (mergeAttribution prev next fb), mergeAttribution_chars]

/-- The outcome of `handleRestoreVersion` in
`src/webui/src/routes/+page.svelte`, as observed right before the
debounced send: the content handed to `scheduleDocumentSync`, the
attribution the reactive block computes from `restoreAttribution`, and
the history state after the call. -/
structure RestoreEmission where
  emittedContent : String
  preSendAttribution : List CharAttribution
  historyAfter : List DocumentCommitEntry
  historyIndexAfter : Option Nat
  deriving Repr, DecidableEq

/-- `handleRestoreVersion`: a `null` index or a missing entry returns
without effect; otherwise the subset `history[0..index]` seeds
`restoreAttribution = computeCharAttribution(subset)` (the source guards
on `subset.length`, which is `index + 1 > 0` whenever the entry exists),
`historyIndex` returns to live, `documentContent` becomes the entry's
content and `scheduleDocumentSync(entry.content)` schedules the outgoing
commit. The reactive attribution block then consumes
`restoreAttribution`, producing
`ensureAttributionMatchesContent(restoreAttribution, documentContent,
fallbackUser)` as the pre-send attribution. -/
def handleRestoreVersion (history : List DocumentCommitEntry)
    (historyIndex : Option Nat) (fallbackUser : String) :
    Option RestoreEmission :=
  match historyIndex with
  | none => none
  | some idx =>
      match history[idx]? with
      | none => none
      | some entry =>
          let subset := history.take (idx + 1)
          let restoreAttribution := computeCharAttribution subset
          some
            { emittedContent := entry.content
              preSendAttribution :=
                ensureAttributionMatchesContent restoreAttribution
                  entry.content fallbackUser
              historyAfter := history
              historyIndexAfter := none }

/-- C3: for every non-empty entry list, `computeCharAttribution` has the
character length of the last entry's content, and
`ensureAttributionMatchesContent(base, content, fallback)` always has the
character length of `content`. -/
theorem attribution_length_invariant (entries : List DocumentCommitEntry)
    (lastEntry : DocumentCommitEntry) (h : entries.getLast? = some lastEntry)
    (base : List CharAttribution) (content fb : String) :
    (computeCharAttribution entries).length =
        lastEntry.content.toList.length ∧
      (ensureAttributionMatchesContent base content fb).length =
        content.toList.length := by
  constructor
  · rcases List.eq_nil_or_concat entries with rfl | ⟨es, e, hent⟩
    · simp at h
    · subst hent
      rw [List.concat_eq_append] at h ⊢
      rw [List.getLast?_concat] at h
      obtain rfl : e = lastEntry := by injection h
      rw [← charsOf_length (computeCharAttribution (es ++ [e])),
        computeCharAttribution_concat_chars]
  · simp only [ensureAttributionMatchesContent]
    split
    · next hcond =>
        rw [hcond.2]
        rfl
    · exact mergeAttribution_length base content.toList fb

/-- Witness for C3 at a concrete entry list and content. -/
theorem attribution_length_invariant_witness :
    (([⟨"alice", "hi", 1⟩] : List DocumentCommitEntry).getLast? =
        some ⟨"alice", "hi", 1⟩) ∧
      ((computeCharAttribution [⟨"alice", "hi", 1⟩]).length =
          (DocumentCommitEntry.mk "alice" "hi" 1).content.toList.length ∧
        (ensureAttributionMatchesContent [] "ab" "bob").length =
          "ab".toList.length) :=
  ⟨rfl,
    attribution_length_invariant [⟨"alice", "hi", 1⟩] ⟨"alice", "hi", 1⟩ rfl
      [] "ab" "bob"⟩

/-- C4: on entries `[{alice,"hello",1},{bob,"hullo",2}]` the merged
attribution is `h:alice, u:bob, l:alice, l:alice, o:alice` — the
deletion-preferred tie-break drops the previous `e` (where
`dp[i+1][j] = dp[i][j+1] = 3`) and only then emits `u` for bob. -/
theorem scenario2_deletion_preferred_tie_break :
    computeCharAttribution [⟨"alice", "hello", 1⟩, ⟨"bob", "hullo", 2⟩] =
      [⟨'h', "alice"⟩, ⟨'u', "bob"⟩, ⟨'l', "alice"⟩, ⟨'l', "alice"⟩,
        ⟨'o', "alice"⟩] := by
  simp [computeCharAttribution, mergeAttribution, mergeWalk, lcsLen, dpRow,
    nextRow, charsOf]

/-- C9: re-merging an attribution against its own character sequence is
the identity, whatever the fallback author. -/
theorem mergeAttribution_roundtrip (attrib : List CharAttribution)
    (fb : String) : mergeAttribution attrib (charsOf attrib) fb = attrib := by
  unfold mergeAttribution
  split
  · next hb => rw [hb]; rfl
  · exact mergeWalk_self fb attrib

/-- C10: the merge reproduces the new character sequence exactly,
position by position, and never invents an author: every output author is
the fallback author or an author of the previous attribution. -/
theorem mergeAttribution_chars_exact_and_authors_bounded
    (previous : List CharAttribution) (nextChars : List Char) (fb : String) :
    charsOf (mergeAttribution previous nextChars fb) = nextChars ∧
      ∀ x ∈ mergeAttribution previous nextChars fb,
        x.author = fb ∨ x.author ∈ previous.map (fun item => item.author) := by
  refine ⟨mergeAttribution_chars previous nextChars fb, ?_⟩
  unfold mergeAttribution
  split
  · intro x hx
    simp only [List.mem_map] at hx
    obtain ⟨c, -, rfl⟩ := hx
    exact Or.inl rfl
  · exact mergeWalk_authors fb previous nextChars

/-- C7: restoring a valid history index emits the historical entry's
content, its pre-send attribution is exactly
`computeCharAttribution(history[0..index])` (prior authors preserved),
the stored history is unchanged and `historyIndex` returns to live. -/
theorem handleRestoreVersion_spec (history : List DocumentCommitEntry)
    (idx : Nat) (fallbackUser : String) (entry : DocumentCommitEntry)
    (h : history[idx]? = some entry) :
    handleRestoreVersion history (some idx) fallbackUser =
      some
        { emittedContent := entry.content
          preSendAttribution := computeCharAttribution (history.take (idx + 1))
          historyAfter := history
          historyIndexAfter := none } := by
  have htake : history.take (idx + 1) = history.take idx ++ [entry] := by
    rw [List.take_succ, h]
    rfl
  have hchars :
      charsOf (computeCharAttribution (history.take (idx + 1))) =
        entry.content.toList := by
    rw [htake]
    exact computeCharAttribution_concat_chars (history.take idx) entry
  have hstep : handleRestoreVersion history (some idx) fallbackUser =
      (match history[idx]? with
        | none => none
        | some entry =>
            some
              { emittedContent := entry.content
                preSendAttribution :=
                  ensureAttributionMatchesContent
                    (computeCharAttribution (history.take (idx + 1)))
                    entry.content fallbackUser
                historyAfter := history
                historyIndexAfter := none }) := rfl
  rw [hstep, h]
  simp only [ensureAttributionMatchesContent_of_chars _ _ _ hchars]

/-- Witness for C7: scenario 4, `restore(0)` over
`[{a,"v1",1},{b,"v2",2},{a,"v3",3}]`. -/
theorem handleRestoreVersion_spec_witness :
    (([⟨"a", "v1", 1⟩, ⟨"b", "v2", 2⟩, ⟨"a", "v3", 3⟩] :
        List DocumentCommitEntry)[0]? = some ⟨"a", "v1", 1⟩) ∧
      handleRestoreVersion
          [⟨"a", "v1", 1⟩, ⟨"b", "v2", 2⟩, ⟨"a", "v3", 3⟩] (some 0) "u" =
        some
          { emittedContent := "v1"
            preSendAttribution :=
              computeCharAttribution
                (([⟨"a", "v1", 1⟩, ⟨"b", "v2", 2⟩, ⟨"a", "v3", 3⟩] :
                  List DocumentCommitEntry).take 1)
            historyAfter := [⟨"a", "v1", 1⟩, ⟨"b", "v2", 2⟩, ⟨"a", "v3", 3⟩]
            historyIndexAfter := none } :=
  ⟨rfl,
    handleRestoreVersion_spec
      [⟨"a", "v1", 1⟩, ⟨"b", "v2", 2⟩, ⟨"a", "v3", 3⟩] 0 "u" ⟨"a", "v1", 1⟩ rfl⟩

/-! ### SubscriptionBroker (`BeelayHandler` in `src/unnamed/part_004`) -/

/-- A broker registration (`ClientRegistration`): the retained target is
identified by `id`; `docId` is the optional document filter. -/
structure ClientRegistration where
  id : Nat
  docId : Option String
  deriving Repr, DecidableEq

/-- The `broadcast` skip test: a registration is skipped only when both
the broadcast `docId` and the registration filter are set and differ
(`if (docId && registration.docId && registration.docId !== docId)
continue`). -/
def matchesFilter (docId : Option String) (reg : ClientRegistration) : Bool :=
  match docId, reg.docId with
  | some d, some r => r = d
  | _, _ => true

/-- `BeelayHandler.broadcast` over the snapshot `[...this.clientTargets]`
taken at call time: each matching registration's
`target.handleServerEvent(event)` is attempted inside `try`; a throwing
delivery (modelled by the `throws` predicate on target identities)
disposes the registration and deletes it from the live set, and the loop
continues with the remaining registrations. Returns the identities that
received the event and the surviving registration list. -/
def broadcast (docId : Option String) (throws : Nat → Bool) :
    List ClientRegistration → List Nat × List ClientRegistration
  | [] => ([], [])
  | reg :: rest =>
      let tail := broadcast docId throws rest
      if matchesFilter docId reg then
        if throws reg.id then (tail.1, tail.2)
        else (reg.id :: tail.1, reg :: tail.2)
      else (tail.1, reg :: tail.2)

/-! ### HistoryNavigator state (`historyIndex` in `+page.svelte`) -/

/-- The history-navigation state the reactive clamp and the slider
handler act on: the length of `documentHistory` and `historyIndex`
(`null` = live). -/
structure HistoryState where
  historyLength : Nat
  historyIndex : Option Nat
  deriving Repr, DecidableEq

/-- The reactive clamp block: empty history forces `historyIndex` to
`null`; otherwise an index beyond `length - 1` is clamped to
`length - 1`. -/
def clampReactive (s : HistoryState) : HistoryState :=
  if s.historyLength = 0 then { s with historyIndex := none }
  else
    match s.historyIndex with
    | none => s
    | some i =>
        if s.historyLength - 1 < i then
          { s with historyIndex := some (s.historyLength - 1) }
        else s

/-- `handleHistorySliderChange(nextIndex)`: no-op on empty history;
otherwise the requested index is bounded into `[0, length-1]` and an
index at or past the last entry resets to live (`null`). The argument is
an integer because the slider input is parsed with `Number.parseInt`. -/
def handleHistorySliderChange (s : HistoryState) (nextIndex : Int) :
    HistoryState :=
  if s.historyLength = 0 then s
  else
    let bounded : Int := max 0 (min nextIndex ((s.historyLength : Int) - 1))
    if (s.historyLength : Int) - 1 ≤ bounded then { s with historyIndex := none }
    else { s with historyIndex := some bounded.toNat }

/-- The events that mutate `documentHistory` or `historyIndex` in the
source: a history resize (`addDocumentCommitToHistory`, hydration in
`selectChannel`), a slider request, the `historyIndex = null` writes
(`handleRestoreVersion`, slider reset) and a channel teardown
(`selectChannel` / `leaveChannel` reset both). The Svelte reactive clamp
runs after every mutation. -/
inductive HistoryEvent where
  | setHistory (newLength : Nat)
  | slider (nextIndex : Int)
  | clearIndex
  | teardown
  deriving Repr, DecidableEq

/-- One observable transition: the raw mutation followed by the reactive
clamp. -/
def historyStep (s : HistoryState) : HistoryEvent → HistoryState
  | .setHistory newLength => clampReactive { s with historyLength := newLength }
  | .slider nextIndex => clampReactive (handleHistorySliderChange s nextIndex)
  | .clearIndex => clampReactive { s with historyIndex := none }
  | .teardown => clampReactive { historyLength := 0, historyIndex := none }

/-- States reachable from the initial empty-history live state. -/
inductive ReachableHistory : HistoryState → Prop where
  | init : ReachableHistory { historyLength := 0, historyIndex := none }
  | step {s : HistoryState} (e : HistoryEvent) (h : ReachableHistory s) :
      ReachableHistory (historyStep s e)

/-! ### LiveSyncPipeline channel switching (`selectChannel` in
`+page.svelte`) -/

/-- The client connection state relevant to debounce cancellation: the
pending debounce timer with the content its callback captured
(`documentDebounce`), the RPC subscription, and the currently selected
channel's document id (what `sendDocumentUpdate` reads when the timer
fires). -/
structure ClientSyncState where
  pendingDebounce : Option String
  subscriptionActive : Bool
  subscriptionDocId : Option String
  currentDocId : Option String
  deriving Repr, DecidableEq

/-- `scheduleDocumentSync(content)`: clears any pending timer and arms a
new one capturing `content`. -/
def scheduleDocumentSync (s : ClientSyncState) (content : String) :
    ClientSyncState :=
  { s with pendingDebounce := some content }

/-- `unsubscribeFromRpc`: tears the subscription down. -/
def unsubscribeFromRpc (s : ClientSyncState) : ClientSyncState :=
  { s with subscriptionActive := false, subscriptionDocId := none }

/-- `selectChannel(channel)` restricted to the fields above, in source
order: `if (subscriptionActive) await unsubscribeFromRpc()`, the
channel/document state is re-pointed at the new channel, and
`subscribeToRpc(activeChannel.docId)` establishes the new subscription.
The function never touches `documentDebounce`. -/
def selectChannel (s : ClientSyncState) (newDocId : String) : ClientSyncState :=
  let s := if s.subscriptionActive then unsubscribeFromRpc s else s
  { s with
    currentDocId := some newDocId
    subscriptionActive := true
    subscriptionDocId := some newDocId }

/-- `leaveChannel`: unsubscribes, clears the channel and, unlike
`selectChannel`, clears the pending debounce timer. -/
def leaveChannel (_s : ClientSyncState) : ClientSyncState :=
  { pendingDebounce := none
    subscriptionActive := false
    subscriptionDocId := none
    currentDocId := none }

/-- The debounce timer elapsing: `sendDocumentUpdate(content)` runs with
the content captured at scheduling time but reads the *live*
`currentChannel`; it returns the `(docId, content)` pair submitted as an
outgoing document commit, if any. -/
def debounceFire (s : ClientSyncState) :
    Option (String × String) × ClientSyncState :=
  match s.pendingDebounce with
  | none => (none, s)
  | some content =>
      match s.currentDocId with
      | none => (none, { s with pendingDebounce := none })
      | some docId => (some (docId, content), { s with pendingDebounce := none })

end Crdt

namespace Crdt

theorem broadcast_fst (docId : Option String) (throws : Nat → Bool)
    (regs : List ClientRegistration) :
    (broadcast docId throws regs).1 =
      (regs.filter fun r => matchesFilter docId r && !throws r.id).map
        (fun r => r.id) := by
  induction regs with
  | nil => rfl
  | cons r rest ih =>
      by_cases hm : matchesFilter docId r
      · by_cases ht : throws r.id
        · simp [broadcast, hm, ht, ih]
        · simp [broadcast, hm, ht, ih]
      · simp [broadcast, hm, ih]

theorem broadcast_snd (docId : Option String) (throws : Nat → Bool)
    (regs : List ClientRegistration) :
    (broadcast docId throws regs).2 =
      regs.filter fun r => !(matchesFilter docId r && throws r.id) := by
  induction regs with
  | nil => rfl
  | cons r rest ih =>
      by_cases hm : matchesFilter docId r
      · by_cases ht : throws r.id
        · simp [broadcast, hm, ht, ih]
        · simp [broadcast, hm, ht, ih]
      · simp [broadcast, hm, ih]

/-- C6: broadcast delivers to every registration whose filter is unset
or equals the docId even when another delivery throws; throwing
registrations are removed, and a subsequent broadcast reaches exactly
the survivors — concretely, with three targets where the second throws,
targets 1 and 3 receive the event and the next broadcast reaches only
targets 1 and 3. -/
theorem broadcast_self_healing (docId : Option String) (throws : Nat → Bool)
    (regs : List ClientRegistration) :
    ((broadcast docId throws regs).1 =
        (regs.filter fun r => matchesFilter docId r && !throws r.id).map
          (fun r => r.id) ∧
      (broadcast docId throws regs).2 =
        regs.filter fun r => !(matchesFilter docId r && throws r.id)) ∧
      broadcast (some "X") (fun i => i == 2)
          [⟨1, none⟩, ⟨2, none⟩, ⟨3, none⟩] =
        ([1, 3], [⟨1, none⟩, ⟨3, none⟩]) ∧
      broadcast (some "X") (fun _ => false) [⟨1, none⟩, ⟨3, none⟩] =
        ([1, 3], [⟨1, none⟩, ⟨3, none⟩]) :=
  ⟨⟨broadcast_fst docId throws regs, broadcast_snd docId throws regs⟩, rfl, rfl⟩

/-- The C8 invariant as a decidable check: `historyIndex` is `null` or
in range. -/
def indexValid (s : HistoryState) : Bool :=
  match s.historyIndex with
  | none => true
  | some i => i < s.historyLength

theorem indexValid_clampReactive (s : HistoryState) :
    indexValid (clampReactive s) = true := by
  unfold clampReactive indexValid
  by_cases h0 : s.historyLength = 0
  · simp [h0]
  · cases hidx : s.historyIndex with
    | none => simp [h0, hidx]
    | some i =>
        by_cases hlt : s.historyLength - 1 < i
        · simp [h0, hlt, hidx]
          omega
        · simp [h0, hlt, hidx]
          omega

theorem indexValid_historyStep (s : HistoryState) (e : HistoryEvent) :
    indexValid (historyStep s e) = true := by
  cases e <;> exact indexValid_clampReactive _

theorem indexValid_reachable (s : HistoryState) (hs : ReachableHistory s) :
    indexValid s = true := by
  induction hs with
  | init => rfl
  | step e _ _ => exact indexValid_historyStep _ e

/-- Helper: the reactive clamp keeps a live (null) index live. -/
theorem clampReactive_none_index (s : HistoryState)
    (h : s.historyIndex = none) : (clampReactive s).historyIndex = none := by
  unfold clampReactive
  by_cases h0 : s.historyLength = 0
  · simp [h0]
  · simp [h0, h]

/-- C8: in every reachable state a non-null `historyIndex` lies in
`[0, historyLength - 1]`; shrinking the history to `newLength ≤
historyIndex` clamps the index to `newLength - 1` (or to `null` when the
history empties), and a slider request at or past the last entry resets
the index to `null`. -/
theorem historyIndex_invariant (s : HistoryState) (hs : ReachableHistory s)
    (i : Nat) (hi : s.historyIndex = some i)
    (newLength : Nat) (hshrink : newLength ≤ i)
    (n : Int) (hn : (s.historyLength : Int) - 1 ≤ n) :
    i < s.historyLength ∧
      (historyStep s (.setHistory newLength)).historyIndex =
        (if newLength = 0 then none else some (newLength - 1)) ∧
      (historyStep s (.slider n)).historyIndex = none := by
  have hv := indexValid_reachable s hs
  unfold indexValid at hv
  rw [hi] at hv
  have hlen : i < s.historyLength := by simpa using hv
  refine ⟨hlen, ?_, ?_⟩
  · show (clampReactive { s with historyLength := newLength }).historyIndex =
      (if newLength = 0 then none else some (newLength - 1))
    simp only [clampReactive, hi]
    by_cases h0 : newLength = 0
    · simp [h0]
    · have hclamp : newLength - 1 < i := by omega
      simp [h0, hclamp]
  · show (clampReactive (handleHistorySliderChange s n)).historyIndex = none
    have h0 : s.historyLength ≠ 0 := by omega
    have hb : (s.historyLength : Int) - 1 ≤
        max 0 (min n ((s.historyLength : Int) - 1)) := by omega
    apply clampReactive_none_index
    simp only [handleHistorySliderChange]
    rw [if_neg h0, if_pos hb]

/-- Helper: a concrete reachable state with two entries, viewing entry 0. -/
theorem reachable_two_zero :
    ReachableHistory { historyLength := 2, historyIndex := some 0 } :=
  ReachableHistory.step (.slider 0)
    (ReachableHistory.step (.setHistory 2) ReachableHistory.init)

/-- Witness for C8 at the concrete reachable state `⟨2, some 0⟩`. -/
theorem historyIndex_invariant_witness :
    ReachableHistory { historyLength := 2, historyIndex := some 0 } ∧
      ({ historyLength := 2, historyIndex := some 0 } :
          HistoryState).historyIndex = some 0 ∧
      (0 : Nat) ≤ 0 ∧
      (((2 : Nat) : Int) - 1 ≤ (5 : Int)) ∧
      (0 < ({ historyLength := 2, historyIndex := some 0 } :
          HistoryState).historyLength ∧
        (historyStep { historyLength := 2, historyIndex := some 0 }
            (.setHistory 0)).historyIndex =
          (if (0 : Nat) = 0 then none else some (0 - 1)) ∧
        (historyStep { historyLength := 2, historyIndex := some 0 }
            (.slider 5)).historyIndex = none) :=
  ⟨reachable_two_zero, rfl, le_refl 0, by decide,
    historyIndex_invariant _ reachable_two_zero 0 rfl 0 (le_refl 0) 5 (by decide)⟩

/-- C5 (refuting evaluation): `selectChannel` tears down the previous
subscription but leaves a pending debounce timer live; after switching
from channel A to channel B with "old text" still debouncing, the timer
is still armed and firing it sends the old content as a document commit
to channel B's document. `leaveChannel`, by contrast, does clear the
timer. -/
theorem selectChannel_leaves_debounce_pending :
    selectChannel
        { pendingDebounce := some "old text", subscriptionActive := true
          subscriptionDocId := some "docA", currentDocId := some "docA" }
        "docB" =
      { pendingDebounce := some "old text", subscriptionActive := true
        subscriptionDocId := some "docB", currentDocId := some "docB" } ∧
    debounceFire
        (selectChannel
          { pendingDebounce := some "old text", subscriptionActive := true
            subscriptionDocId := some "docA", currentDocId := some "docA" }
          "docB") =
      (some ("docB", "old text"),
        { pendingDebounce := none, subscriptionActive := true
          subscriptionDocId := some "docB", currentDocId := some "docB" }) ∧
    (leaveChannel
        { pendingDebounce := some "old text", subscriptionActive := true
          subscriptionDocId := some "docA", currentDocId := some "docA"
          }).pendingDebounce = none :=
  ⟨rfl, rfl, rfl⟩

/-! ### CommitIngestor (`persistCommitsForChannel` in `+page.svelte` and
the SQLite store it writes through, `src/webui/src/sqliteService.ts`) -/

/-- The JSON payload decoded from a commit's contents, as
`persistCommitsForChannel` probes it: each field is `some` exactly when
the decoded object carries that field with the probed type (`typeof
payload?.type === 'string'`, `typeof payload?.content === 'string'`,
`typeof payload?.timestamp === 'number'`). -/
structure RawPayload where
  type? : Option String
  user? : Option String
  content? : Option String
  timestamp? : Option Nat
  deriving Repr, DecidableEq

/-- A commit as the ingest loop sees it: its hash, and the result of
decoding + `JSON.parse` of its contents (`none` on parse failure, which
the loop skips uncounted). -/
structure CommitSnapshot where
  hash : String
  payload? : Option RawPayload
  deriving Repr, DecidableEq

/-- A chat message row (`messages` table, primary key `id`). -/
structure Message where
  id : String
  channelId : String
  user : String
  content : String
  timestamp : Nat
  commitHash : String
  deriving Repr, DecidableEq

/-- A document snapshot row (`channel_documents` table, primary key
`channel_id`). -/
structure ChannelDocument where
  channelId : String
  content : String
  updatedAt : Nat
  latestCommitHash : Option String
  deriving Repr, DecidableEq

/-- A document history row (`ChannelDocumentCommit` in the source),
keyed per channel by commit hash. -/
structure ChannelDocumentCommit where
  channelId : String
  commitHash : String
  user : String
  content : String
  timestamp : Nat
  deriving Repr, DecidableEq

/-- The channel row fields the ingest routine reads. -/
structure Channel where
  id : String
  docId : String
  lastModified : Nat
  deriving Repr, DecidableEq

/-- The SQLite tables the ingest routine touches, each keyed by its
primary key (a SQL table is a set of rows, so each table is modelled as
its lookup function). -/
structure SqliteStore where
  messages : String → Option Message
  channelDocuments : String → Option ChannelDocument
  documentCommits : String × String → Option ChannelDocumentCommit
  channelLastModified : String → Option Nat

/-- Store extensionality, component by component. -/
theorem sqliteStore_ext (a b : SqliteStore)
    (h1 : a.messages = b.messages)
    (h2 : a.channelDocuments = b.channelDocuments)
    (h3 : a.documentCommits = b.documentCommits)
    (h4 : a.channelLastModified = b.channelLastModified) : a = b := by
  cases a
  cases b
  simp_all

/-- `saveMessage`: `INSERT OR IGNORE` on the `id` primary key followed
by `SELECT changes()` — inserts only when no row with that id exists and
reports whether a row was inserted. -/
def saveMessage (store : SqliteStore) (m : Message) : SqliteStore × Bool :=
  match store.messages m.id with
  | some _ => (store, false)
  | none =>
      ({ store with
          messages := fun k => if k = m.id then some m else store.messages k },
        true)

/-- `saveChannelDocument`: `INSERT ... ON CONFLICT(channel_id) DO
UPDATE`, overwriting content, updatedAt and latestCommitHash. -/
def saveChannelDocument (store : SqliteStore) (d : ChannelDocument) :
    SqliteStore :=
  { store with
    channelDocuments := fun k =>
      if k = d.channelId then some d else store.channelDocuments k }

/-- Modelled from the spec: `saveChannelDocumentCommit` is called by
`persistCommitsForChannel` but its implementation is not among the
sources; per the spec a document payload "is persisted as a
DocumentHistoryEntry keyed by hash", so it upserts the row keyed by
(channel, commit hash). -/
def saveChannelDocumentCommit (store : SqliteStore)
    (c : ChannelDocumentCommit) : SqliteStore :=
  { store with
    documentCommits := fun k =>
      if k = (c.channelId, c.commitHash) then some c
      else store.documentCommits k }

/-- Modelled from the spec: `updateChannelLastModified` is called by
`persistCommitsForChannel` but its implementation is not among the
sources; per the spec "the channel's persisted `lastModified` is
updated" (last-write-wins update keyed by channel id). -/
def updateChannelLastModified (store : SqliteStore) (channelId : String)
    (t : Nat) : SqliteStore :=
  { store with
    channelLastModified := fun k =>
      if k = channelId then some t else store.channelLastModified k }

/-- `payload?.user?.trim() || 'anonymous'`: a missing user or one that
trims to the empty string falls back to `"anonymous"`. -/
def resolveUser (user? : Option String) : String :=
  match user? with
  | none => "anonymous"
  | some u => if u.trim = "" then "anonymous" else u.trim

/-- The mutable locals of the `for (const commit of commits)` loop in
`persistCommitsForChannel`, plus the store being written through. -/
structure IngestState where
  messageCount : Nat
  documentCount : Nat
  latestActivity : Nat
  latestDocumentTimestamp : Nat
  latestDocumentHash : Option String
  latestDocumentContent : String
  store : SqliteStore

/-- One iteration of the ingest loop: parse failure skips uncounted;
otherwise the type defaults to `"message"`, the timestamp to `Date.now()`
(the `now` parameter) and the user to `"anonymous"`; `latestActivity`
advances for every parsed payload; a document payload with string
content is saved as a history entry and unconditionally overwrites the
running latest-document hash/content while the running timestamp takes
the max; a message payload with string content is saved
insert-if-absent and counted only when newly inserted. -/
def processCommit (channel : Channel) (now : Nat) (st : IngestState)
    (commit : CommitSnapshot) : IngestState :=
  match commit.payload? with
  | none => st
  | some payload =>
      let type := payload.type?.getD "message"
      let timestamp := payload.timestamp?.getD now
      let user := resolveUser payload.user?
      let st := { st with latestActivity := max st.latestActivity timestamp }
      if type = "document" then
        match payload.content? with
        | none => st
        | some content =>
            { st with
              store := saveChannelDocumentCommit st.store
                { channelId := channel.id, commitHash := commit.hash
                  user := user, content := content, timestamp := timestamp }
              latestDocumentTimestamp := max st.latestDocumentTimestamp timestamp
              latestDocumentHash := some commit.hash
              latestDocumentContent := content
              documentCount := st.documentCount + 1 }
      else if type = "message" then
        match payload.content? with
        | none => st
        | some content =>
            let m : Message :=
              { id := "msg-" ++ commit.hash, channelId := channel.id
                user := user, content := content, timestamp := timestamp
                commitHash := commit.hash }
            let saved := saveMessage st.store m
            { st with
              store := saved.1
              messageCount :=
                if saved.2 then st.messageCount + 1 else st.messageCount }
      else st

/-- The `PersistResult` record `persistCommitsForChannel` returns. -/
structure PersistResult where
  messageCount : Nat
  documentCount : Nat
  latestActivity : Nat
  latestDocumentTimestamp : Nat
  latestDocumentHash : Option String
  latestDocumentContent : String
  deriving Repr, DecidableEq

/-- The loop of `persistCommitsForChannel`, started from the zeroed
counters with `latestActivity` seeded from the channel row. -/
def ingestLoop (channel : Channel) (now : Nat)
    (commits : List CommitSnapshot) (store : SqliteStore) : IngestState :=
  commits.foldl (processCommit channel now)
    { messageCount := 0, documentCount := 0
      latestActivity := channel.lastModified
      latestDocumentTimestamp := 0, latestDocumentHash := none
      latestDocumentContent := "", store := store }

/-- The DocumentSnapshot row written after the batch: the running
latest-document fields, with `updatedAt: latestDocumentTimestamp ||
Date.now()`. -/
def snapshotOf (channel : Channel) (now : Nat) (st : IngestState) :
    ChannelDocument :=
  { channelId := channel.id
    content := st.latestDocumentContent
    updatedAt :=
      if st.latestDocumentTimestamp = 0 then now
      else st.latestDocumentTimestamp
    latestCommitHash := st.latestDocumentHash }

/-- The writes after the loop: the DocumentSnapshot overwrite when any
document commit was counted, then the channel `lastModified` update when
`latestActivity` moved. -/
def finalizeStore (channel : Channel) (now : Nat) (st : IngestState) :
    SqliteStore :=
  let store1 :=
    if 0 < st.documentCount then
      saveChannelDocument st.store (snapshotOf channel now st)
    else st.store
  if st.latestActivity ≠ channel.lastModified then
    updateChannelLastModified store1 channel.id st.latestActivity
  else store1

/-- The `PersistResult` read off the loop state. -/
def resultOf (st : IngestState) : PersistResult :=
  { messageCount := st.messageCount, documentCount := st.documentCount
    latestActivity := st.latestActivity
    latestDocumentTimestamp := st.latestDocumentTimestamp
    latestDocumentHash := st.latestDocumentHash
    latestDocumentContent := st.latestDocumentContent }

/-- `persistCommitsForChannel(channel, commits)`: run the loop, perform
the post-batch writes, return the counters. -/
def persistCommitsForChannel (channel : Channel)
    (commits : List CommitSnapshot) (now : Nat) (store : SqliteStore) :
    PersistResult × SqliteStore :=
  let st := ingestLoop channel now commits store
  (resultOf st, finalizeStore channel now st)

/-- Whether the loop treats a commit as a valid document payload
(`type === 'document'` after defaulting, with string content). -/
def isDocCommit (c : CommitSnapshot) : Bool :=
  match c.payload? with
  | none => false
  | some p => p.type?.getD "message" = "document" && p.content?.isSome

/-- Whether the loop treats a commit as a valid message payload. -/
def isMsgCommit (c : CommitSnapshot) : Bool :=
  match c.payload? with
  | none => false
  | some p =>
      p.type?.getD "message" ≠ "document" &&
        p.type?.getD "message" = "message" && p.content?.isSome

/-- The resolved timestamp of a commit's payload. -/
def commitTimestamp (now : Nat) (c : CommitSnapshot) : Nat :=
  match c.payload? with
  | none => now
  | some p => p.timestamp?.getD now

/-- The string content of a commit's payload (junk when absent). -/
def commitContent (c : CommitSnapshot) : String :=
  match c.payload? with
  | none => ""
  | some p => p.content?.getD ""

/-- The empty store, for concrete evaluations. -/
def emptyStore : SqliteStore :=
  { messages := fun _ => none
    channelDocuments := fun _ => none
    documentCommits := fun _ => none
    channelLastModified := fun _ => none }

/-- A document commit literal, for concrete evaluations. -/
def mkDocCommit (hash content : String) (ts : Nat) : CommitSnapshot :=
  { hash := hash
    payload? := some
      { type? := some "document", user? := some "u"
        content? := some content, timestamp? := some ts } }

/-- A message commit literal, for concrete evaluations. -/
def mkMsgCommit (hash content : String) (ts : Nat) : CommitSnapshot :=
  { hash := hash
    payload? := some
      { type? := some "message", user? := some "u"
        content? := some content, timestamp? := some ts } }

end Crdt
namespace Crdt

def commitUser (c : CommitSnapshot) : String :=
  match c.payload? with
  | none => "anonymous"
  | some p => resolveUser p.user?

def msgId (c : CommitSnapshot) : String := "msg-" ++ c.hash

def msgRecordOf (channel : Channel) (now : Nat) (c : CommitSnapshot) : Message :=
  { id := msgId c, channelId := channel.id, user := commitUser c
    content := commitContent c, timestamp := commitTimestamp now c
    commitHash := c.hash }

def docEntryOf (channel : Channel) (now : Nat) (c : CommitSnapshot) :
    ChannelDocumentCommit :=
  { channelId := channel.id, commitHash := c.hash, user := commitUser c
    content := commitContent c, timestamp := commitTimestamp now c }

theorem processCommit_none (channel : Channel) (now : Nat) (st : IngestState)
    (c : CommitSnapshot) (hp : c.payload? = none) :
    processCommit channel now st c = st := by
  simp [processCommit, hp]

theorem processCommit_doc (channel : Channel) (now : Nat) (st : IngestState)
    (c : CommitSnapshot) (hd : isDocCommit c = true) :
    processCommit channel now st c =
      { st with
        latestActivity := max st.latestActivity (commitTimestamp now c)
        store := saveChannelDocumentCommit st.store (docEntryOf channel now c)
        latestDocumentTimestamp :=
          max st.latestDocumentTimestamp (commitTimestamp now c)
        latestDocumentHash := some c.hash
        latestDocumentContent := commitContent c
        documentCount := st.documentCount + 1 } := by
  cases hp : c.payload? with
  | none => simp [isDocCommit, hp] at hd
  | some p =>
      cases hc : p.content? with
      | none => simp [isDocCommit, hp, hc] at hd
      | some content =>
          have htype : p.type?.getD "message" = "document" := by
            simpa [isDocCommit, hp, hc] using hd
          simp [processCommit, hp, htype, hc, docEntryOf, commitUser,
            commitContent, commitTimestamp]

theorem processCommit_msg (channel : Channel) (now : Nat) (st : IngestState)
    (c : CommitSnapshot) (hm : isMsgCommit c = true) :
    processCommit channel now st c =
      { st with
        latestActivity := max st.latestActivity (commitTimestamp now c)
        store := (saveMessage st.store (msgRecordOf channel now c)).1
        messageCount :=
          if (saveMessage st.store (msgRecordOf channel now c)).2 then
            st.messageCount + 1
          else st.messageCount } := by
  cases hp : c.payload? with
  | none => simp [isMsgCommit, hp] at hm
  | some p =>
      cases hc : p.content? with
      | none => simp [isMsgCommit, hp, hc] at hm
      | some content =>
          have htype : p.type?.getD "message" = "message" := by
            simp [isMsgCommit, hp, hc] at hm
            exact hm.2
          have hnd : p.type?.getD "message" ≠ "document" := by
            rw [htype]; decide
          simp [processCommit, hp, htype, hnd, hc, msgRecordOf, msgId,
            commitUser, commitContent, commitTimestamp]

theorem processCommit_other (channel : Channel) (now : Nat) (st : IngestState)
    (c : CommitSnapshot) (p : RawPayload) (hp : c.payload? = some p)
    (hd : isDocCommit c = false) (hm : isMsgCommit c = false) :
    processCommit channel now st c =
      { st with
        latestActivity := max st.latestActivity (commitTimestamp now c) } := by
  by_cases htype : p.type?.getD "message" = "document"
  · cases hc : p.content? with
    | none => simp [processCommit, hp, htype, hc, commitTimestamp]
    | some content => simp [isDocCommit, hp, htype, hc] at hd
  · by_cases htype2 : p.type?.getD "message" = "message"
    · cases hc : p.content? with
      | none => simp [processCommit, hp, htype, htype2, hc, commitTimestamp]
      | some content => simp [isMsgCommit, hp, htype, htype2, hc] at hm
    · simp [processCommit, hp, htype, htype2, commitTimestamp]

end Crdt
namespace Crdt

theorem getLast?_cons_eq {α : Type} (a : α) (l : List α) :
    (a :: l).getLast? = some (l.getLast?.getD a) := by
  induction l generalizing a with
  | nil => rfl
  | cons b bs ih => rw [List.getLast?_cons_cons, ih b]; rfl

/-- How `latestActivity` accumulates over one commit. -/
def activityStep (now : Nat) (acc : Nat) (c : CommitSnapshot) : Nat :=
  match c.payload? with
  | none => acc
  | some _ => max acc (commitTimestamp now c)

theorem foldl_activity (channel : Channel) (now : Nat)
    (commits : List CommitSnapshot) (st : IngestState) :
    (commits.foldl (processCommit channel now) st).latestActivity =
      commits.foldl (activityStep now) st.latestActivity := by
  induction commits generalizing st with
  | nil => rfl
  | cons c cs ih =>
      rw [List.foldl_cons, List.foldl_cons, ih]
      congr 1
      by_cases hd : isDocCommit c = true
      · rw [processCommit_doc channel now st c hd]
        cases hp : c.payload? with
        | none => simp [isDocCommit, hp] at hd
        | some p => simp [activityStep, hp]
      · by_cases hm : isMsgCommit c = true
        · rw [processCommit_msg channel now st c hm]
          cases hp : c.payload? with
          | none => simp [isMsgCommit, hp] at hm
          | some p => simp [activityStep, hp]
        · cases hp : c.payload? with
          | none =>
              rw [processCommit_none channel now st c hp]
              simp [activityStep, hp]
          | some p =>
              rw [processCommit_other channel now st c p hp
                (by simpa using hd) (by simpa using hm)]
              simp [activityStep, hp]

theorem foldl_docFields (channel : Channel) (now : Nat)
    (commits : List CommitSnapshot) (st : IngestState) :
    ((commits.foldl (processCommit channel now) st).latestDocumentContent =
        ((commits.filter isDocCommit).getLast?.map commitContent).getD
          st.latestDocumentContent ∧
      (commits.foldl (processCommit channel now) st).latestDocumentHash =
        ((commits.filter isDocCommit).getLast?.map
          (fun d => some d.hash)).getD st.latestDocumentHash) ∧
      (commits.foldl (processCommit channel now) st).latestDocumentTimestamp =
        (commits.filter isDocCommit).foldl
          (fun acc c => max acc (commitTimestamp now c))
          st.latestDocumentTimestamp ∧
      (commits.foldl (processCommit channel now) st).documentCount =
        st.documentCount + (commits.filter isDocCommit).length := by
  induction commits generalizing st with
  | nil => exact ⟨⟨rfl, rfl⟩, rfl, rfl⟩
  | cons c cs ih =>
      rw [List.foldl_cons]
      by_cases hd : isDocCommit c = true
      · rw [processCommit_doc channel now st c hd]
        have hfil : (c :: cs).filter isDocCommit = c :: cs.filter isDocCommit :=
          List.filter_cons_of_pos hd
        rw [hfil]
        obtain ⟨⟨ih1, ih2⟩, ih3, ih4⟩ := ih _
        refine ⟨⟨?_, ?_⟩, ?_, ?_⟩
        · rw [ih1, getLast?_cons_eq]
          cases h : (cs.filter isDocCommit).getLast? <;> simp [h]
        · rw [ih2, getLast?_cons_eq]
          cases h : (cs.filter isDocCommit).getLast? <;> simp [h]
        · rw [ih3, List.foldl_cons]
        · rw [ih4]
          simp only [List.length_cons]
          omega
      · have hfil : (c :: cs).filter isDocCommit = cs.filter isDocCommit :=
          List.filter_cons_of_neg (by simpa using hd)
        rw [hfil]
        have hsame :
            (processCommit channel now st c).latestDocumentContent =
                st.latestDocumentContent ∧
              (processCommit channel now st c).latestDocumentHash =
                st.latestDocumentHash ∧
              (processCommit channel now st c).latestDocumentTimestamp =
                st.latestDocumentTimestamp ∧
              (processCommit channel now st c).documentCount =
                st.documentCount := by
          by_cases hm : isMsgCommit c = true
          · rw [processCommit_msg channel now st c hm]
            exact ⟨rfl, rfl, rfl, rfl⟩
          · cases hp : c.payload? with
            | none =>
                rw [processCommit_none channel now st c hp]
                exact ⟨rfl, rfl, rfl, rfl⟩
            | some p =>
                rw [processCommit_other channel now st c p hp
                  (by simpa using hd) (by simpa using hm)]
                exact ⟨rfl, rfl, rfl, rfl⟩
        obtain ⟨⟨ih1, ih2⟩, ih3, ih4⟩ := ih (processCommit channel now st c)
        exact ⟨⟨by rw [ih1, hsame.1], by rw [ih2, hsame.2.1]⟩,
          by rw [ih3, hsame.2.2.1], by rw [ih4, hsame.2.2.2]⟩

end Crdt
namespace Crdt

theorem processCommit_store_fixed (channel : Channel) (now : Nat)
    (st : IngestState) (c : CommitSnapshot) :
    (processCommit channel now st c).store.channelDocuments =
        st.store.channelDocuments ∧
      (processCommit channel now st c).store.channelLastModified =
        st.store.channelLastModified := by
  by_cases hd : isDocCommit c = true
  · rw [processCommit_doc channel now st c hd]
    exact ⟨rfl, rfl⟩
  · by_cases hm : isMsgCommit c = true
    · rw [processCommit_msg channel now st c hm]
      unfold saveMessage
      cases st.store.messages (msgRecordOf channel now c).id <;> exact ⟨rfl, rfl⟩
    · cases hp : c.payload? with
      | none => rw [processCommit_none channel now st c hp]; exact ⟨rfl, rfl⟩
      | some p =>
          rw [processCommit_other channel now st c p hp
            (by simpa using hd) (by simpa using hm)]
          exact ⟨rfl, rfl⟩

theorem foldl_store_fixed (channel : Channel) (now : Nat)
    (commits : List CommitSnapshot) (st : IngestState) :
    (commits.foldl (processCommit channel now) st).store.channelDocuments =
        st.store.channelDocuments ∧
      (commits.foldl (processCommit channel now) st).store.channelLastModified =
        st.store.channelLastModified := by
  induction commits generalizing st with
  | nil => exact ⟨rfl, rfl⟩
  | cons c cs ih =>
      rw [List.foldl_cons]
      obtain ⟨ih1, ih2⟩ := ih (processCommit channel now st c)
      obtain ⟨h1, h2⟩ := processCommit_store_fixed channel now st c
      exact ⟨by rw [ih1, h1], by rw [ih2, h2]⟩

theorem processCommit_messages_mono (channel : Channel) (now : Nat)
    (st : IngestState) (c : CommitSnapshot) (k : String) (m : Message)
    (h : st.store.messages k = some m) :
    (processCommit channel now st c).store.messages k = some m := by
  by_cases hd : isDocCommit c = true
  · rw [processCommit_doc channel now st c hd]
    exact h
  · by_cases hm : isMsgCommit c = true
    · rw [processCommit_msg channel now st c hm]
      unfold saveMessage
      cases hex : st.store.messages (msgRecordOf channel now c).id with
      | some m2 => exact h
      | none =>
          by_cases hk : k = (msgRecordOf channel now c).id
          · rw [hk] at h
            rw [hex] at h
            cases h
          · simp [hk]
            exact h
    · cases hp : c.payload? with
      | none => rw [processCommit_none channel now st c hp]; exact h
      | some p =>
          rw [processCommit_other channel now st c p hp
            (by simpa using hd) (by simpa using hm)]
          exact h

theorem foldl_messages_mono (channel : Channel) (now : Nat)
    (commits : List CommitSnapshot) (st : IngestState) (k : String)
    (m : Message) (h : st.store.messages k = some m) :
    (commits.foldl (processCommit channel now) st).store.messages k = some m := by
  induction commits generalizing st with
  | nil => exact h
  | cons c cs ih =>
      rw [List.foldl_cons]
      exact ih _ (processCommit_messages_mono channel now st c k m h)

theorem foldl_messages_present (channel : Channel) (now : Nat)
    (commits : List CommitSnapshot) (st : IngestState) (c : CommitSnapshot)
    (hc : c ∈ commits) (hm : isMsgCommit c = true) :
    ((commits.foldl (processCommit channel now) st).store.messages
      (msgId c)).isSome = true := by
  induction commits generalizing st with
  | nil => cases hc
  | cons a cs ih =>
      rw [List.foldl_cons]
      rcases List.mem_cons.mp hc with rfl | htail
      · -- the head is the message commit: after this step its id is present
        have hstep : ∃ m, (processCommit channel now st c).store.messages
            (msgId c) = some m := by
          rw [processCommit_msg channel now st c hm]
          unfold saveMessage
          cases hex : st.store.messages (msgRecordOf channel now c).id with
          | some m2 =>
              refine ⟨m2, ?_⟩
              simpa [msgRecordOf] using hex
          | none =>
              refine ⟨msgRecordOf channel now c, ?_⟩
              simp [msgRecordOf]
        obtain ⟨m, hmth⟩ := hstep
        rw [foldl_messages_mono channel now cs _ (msgId c) m hmth]
        rfl
      · exact ih _ htail

end Crdt
namespace Crdt

theorem processCommit_messages_noop (channel : Channel) (now : Nat)
    (st : IngestState) (c : CommitSnapshot)
    (h : isMsgCommit c = true →
      (st.store.messages (msgId c)).isSome = true) :
    (processCommit channel now st c).store.messages = st.store.messages ∧
      (processCommit channel now st c).messageCount = st.messageCount := by
  by_cases hd : isDocCommit c = true
  · rw [processCommit_doc channel now st c hd]
    exact ⟨rfl, rfl⟩
  · by_cases hm : isMsgCommit c = true
    · rw [processCommit_msg channel now st c hm]
      have hpresent := h hm
      unfold saveMessage
      cases hex : st.store.messages (msgRecordOf channel now c).id with
      | some m2 => exact ⟨rfl, rfl⟩
      | none =>
          have hex2 : st.store.messages (msgId c) = none := hex
          rw [hex2] at hpresent
          cases hpresent
    · cases hp : c.payload? with
      | none => rw [processCommit_none channel now st c hp]; exact ⟨rfl, rfl⟩
      | some p =>
          rw [processCommit_other channel now st c p hp
            (by simpa using hd) (by simpa using hm)]
          exact ⟨rfl, rfl⟩

theorem foldl_messages_noop (channel : Channel) (now : Nat)
    (commits : List CommitSnapshot) (st : IngestState)
    (h : ∀ c ∈ commits, isMsgCommit c = true →
      (st.store.messages (msgId c)).isSome = true) :
    (commits.foldl (processCommit channel now) st).store.messages =
        st.store.messages ∧
      (commits.foldl (processCommit channel now) st).messageCount =
        st.messageCount := by
  induction commits generalizing st with
  | nil => exact ⟨rfl, rfl⟩
  | cons c cs ih =>
      rw [List.foldl_cons]
      obtain ⟨h1, h2⟩ := processCommit_messages_noop channel now st c
        (h c (List.mem_cons_self c cs))
      obtain ⟨ih1, ih2⟩ := ih (processCommit channel now st c)
        (fun d hd hmsg => by rw [h1]; exact h d (List.mem_cons_of_mem c hd) hmsg)
      exact ⟨by rw [ih1, h1], by rw [ih2, h2]⟩

theorem processCommit_docCommits (channel : Channel) (now : Nat)
    (st : IngestState) (c : CommitSnapshot) (k : String × String) :
    (processCommit channel now st c).store.documentCommits k =
      (if isDocCommit c = true ∧ k = (channel.id, c.hash) then
        some (docEntryOf channel now c)
      else st.store.documentCommits k) := by
  by_cases hd : isDocCommit c = true
  · rw [processCommit_doc channel now st c hd]
    unfold saveChannelDocumentCommit
    by_cases hk : k = (channel.id, c.hash)
    · rw [if_pos ⟨hd, hk⟩]
      simp [docEntryOf, hk]
    · rw [if_neg (fun hand => hk hand.2)]
      simp [docEntryOf, hk]
  · rw [if_neg (fun hand => hd hand.1)]
    by_cases hm : isMsgCommit c = true
    · rw [processCommit_msg channel now st c hm]
      unfold saveMessage
      cases st.store.messages (msgRecordOf channel now c).id <;> rfl
    · cases hp : c.payload? with
      | none => rw [processCommit_none channel now st c hp]
      | some p =>
          rw [processCommit_other channel now st c p hp
            (by simpa using hd) (by simpa using hm)]

theorem foldl_docCommits (channel : Channel) (now : Nat)
    (commits : List CommitSnapshot) (st : IngestState) (k : String × String) :
    (commits.foldl (processCommit channel now) st).store.documentCommits k =
      ((commits.filter (fun c =>
          isDocCommit c && decide (k = (channel.id, c.hash)))).getLast?.map
        (fun c => some (docEntryOf channel now c))).getD
        (st.store.documentCommits k) := by
  induction commits generalizing st with
  | nil => rfl
  | cons c cs ih =>
      rw [List.foldl_cons, ih]
      by_cases hmatch : isDocCommit c = true ∧ k = (channel.id, c.hash)
      · have hfil : (c :: cs).filter (fun c =>
            isDocCommit c && decide (k = (channel.id, c.hash))) =
            c :: cs.filter (fun c =>
              isDocCommit c && decide (k = (channel.id, c.hash))) :=
          List.filter_cons_of_pos (by simp [hmatch.1, hmatch.2])
        rw [hfil, getLast?_cons_eq]
        rw [processCommit_docCommits channel now st c k, if_pos hmatch]
        cases h : (cs.filter (fun c =>
            isDocCommit c && decide (k = (channel.id, c.hash)))).getLast? <;>
          simp [h]
      · have hfil : (c :: cs).filter (fun c =>
            isDocCommit c && decide (k = (channel.id, c.hash))) =
            cs.filter (fun c =>
              isDocCommit c && decide (k = (channel.id, c.hash))) :=
          List.filter_cons_of_neg (by
            simp only [Bool.and_eq_true, decide_eq_true_eq]
            exact fun hand => hmatch ⟨hand.1, hand.2⟩)
        rw [hfil]
        rw [processCommit_docCommits channel now st c k, if_neg hmatch]

end Crdt
namespace Crdt

theorem finalizeStore_messages (channel : Channel) (now : Nat)
    (st : IngestState) :
    (finalizeStore channel now st).messages = st.store.messages := by
  unfold finalizeStore
  by_cases h1 : 0 < st.documentCount <;>
    by_cases h2 : st.latestActivity ≠ channel.lastModified <;>
      simp [h1, h2, saveChannelDocument, updateChannelLastModified]

theorem finalizeStore_docCommits (channel : Channel) (now : Nat)
    (st : IngestState) :
    (finalizeStore channel now st).documentCommits =
      st.store.documentCommits := by
  unfold finalizeStore
  by_cases h1 : 0 < st.documentCount <;>
    by_cases h2 : st.latestActivity ≠ channel.lastModified <;>
      simp [h1, h2, saveChannelDocument, updateChannelLastModified]

theorem finalizeStore_channelDocuments (channel : Channel) (now : Nat)
    (st : IngestState) :
    (finalizeStore channel now st).channelDocuments =
      (if 0 < st.documentCount then
        fun k =>
          if k = channel.id then some (snapshotOf channel now st)
          else st.store.channelDocuments k
      else st.store.channelDocuments) := by
  unfold finalizeStore
  by_cases h1 : 0 < st.documentCount <;>
    by_cases h2 : st.latestActivity ≠ channel.lastModified <;>
      simp [h1, h2, saveChannelDocument, updateChannelLastModified,
        snapshotOf]

theorem finalizeStore_channelLastModified (channel : Channel) (now : Nat)
    (st : IngestState) :
    (finalizeStore channel now st).channelLastModified =
      (if st.latestActivity ≠ channel.lastModified then
        fun k =>
          if k = channel.id then some st.latestActivity
          else st.store.channelLastModified k
      else st.store.channelLastModified) := by
  unfold finalizeStore
  by_cases h1 : 0 < st.documentCount <;>
    by_cases h2 : st.latestActivity ≠ channel.lastModified <;>
      simp [h1, h2, saveChannelDocument, updateChannelLastModified]

theorem persist_fst (channel : Channel) (commits : List CommitSnapshot)
    (now : Nat) (store : SqliteStore) :
    (persistCommitsForChannel channel commits now store).1 =
      resultOf (ingestLoop channel now commits store) := rfl

theorem persist_snd (channel : Channel) (commits : List CommitSnapshot)
    (now : Nat) (store : SqliteStore) :
    (persistCommitsForChannel channel commits now store).2 =
      finalizeStore channel now (ingestLoop channel now commits store) := rfl

theorem persist_snapshot_from_last_doc_core (channel : Channel)
    (commits : List CommitSnapshot) (now : Nat) (store : SqliteStore)
    (lastDoc : CommitSnapshot)
    (h : (commits.filter isDocCommit).getLast? = some lastDoc) :
    (persistCommitsForChannel channel commits now store).2.channelDocuments
        channel.id =
      some
        { channelId := channel.id
          content := commitContent lastDoc
          updatedAt :=
            if (commits.filter isDocCommit).foldl
                (fun acc c => max acc (commitTimestamp now c)) 0 = 0 then
              now
            else
              (commits.filter isDocCommit).foldl
                (fun acc c => max acc (commitTimestamp now c)) 0
          latestCommitHash := some lastDoc.hash } ∧
      (persistCommitsForChannel channel commits now
          store).1.latestDocumentContent = commitContent lastDoc ∧
      (persistCommitsForChannel channel commits now
          store).1.latestDocumentHash = some lastDoc.hash ∧
      (persistCommitsForChannel channel commits now
          store).1.latestDocumentTimestamp =
        (commits.filter isDocCommit).foldl
          (fun acc c => max acc (commitTimestamp now c)) 0 := by
  obtain ⟨⟨hcontent, hhash⟩, hts, hcount⟩ :=
    foldl_docFields channel now commits
      { messageCount := 0, documentCount := 0
        latestActivity := channel.lastModified
        latestDocumentTimestamp := 0, latestDocumentHash := none
        latestDocumentContent := "", store := store }
  have hne : commits.filter isDocCommit ≠ [] := by
    intro heq
    rw [heq] at h
    cases h
  have hpos : 0 < (ingestLoop channel now commits store).documentCount := by
    rw [show (ingestLoop channel now commits store).documentCount =
      (commits.foldl (processCommit channel now)
        { messageCount := 0, documentCount := 0
          latestActivity := channel.lastModified
          latestDocumentTimestamp := 0, latestDocumentHash := none
          latestDocumentContent := "", store := store }).documentCount from rfl,
      hcount]
    have := List.length_pos.mpr hne
    omega
  have hcontent2 : (ingestLoop channel now commits store).latestDocumentContent
      = commitContent lastDoc := by
    rw [show (ingestLoop channel now commits store).latestDocumentContent =
      (commits.foldl (processCommit channel now)
        { messageCount := 0, documentCount := 0
          latestActivity := channel.lastModified
          latestDocumentTimestamp := 0, latestDocumentHash := none
          latestDocumentContent := "", store := store }).latestDocumentContent
      from rfl, hcontent, h]
    rfl
  have hhash2 : (ingestLoop channel now commits store).latestDocumentHash =
      some lastDoc.hash := by
    rw [show (ingestLoop channel now commits store).latestDocumentHash =
      (commits.foldl (processCommit channel now)
        { messageCount := 0, documentCount := 0
          latestActivity := channel.lastModified
          latestDocumentTimestamp := 0, latestDocumentHash := none
          latestDocumentContent := "", store := store }).latestDocumentHash
      from rfl, hhash, h]
    rfl
  have hts2 : (ingestLoop channel now commits store).latestDocumentTimestamp =
      (commits.filter isDocCommit).foldl
        (fun acc c => max acc (commitTimestamp now c)) 0 := hts
  refine ⟨?_, ?_, ?_, ?_⟩
  · rw [persist_snd, finalizeStore_channelDocuments, if_pos hpos, if_pos rfl]
    unfold snapshotOf
    rw [hcontent2, hhash2, hts2]
  · rw [persist_fst]
    exact hcontent2
  · rw [persist_fst]
    exact hhash2
  · rw [persist_fst]
    exact hts2

end Crdt
namespace Crdt

theorem persist_messages_eq (channel : Channel)
    (commits : List CommitSnapshot) (now : Nat) (store : SqliteStore) :
    (persistCommitsForChannel channel commits now store).2.messages =
      (ingestLoop channel now commits store).store.messages := by
  rw [persist_snd, finalizeStore_messages]

theorem second_pass_loop_noop_messages (channel : Channel)
    (commits : List CommitSnapshot) (now : Nat) (store : SqliteStore) :
    (ingestLoop channel now commits
        (persistCommitsForChannel channel commits now
          store).2).store.messages =
      (persistCommitsForChannel channel commits now store).2.messages ∧
    (ingestLoop channel now commits
        (persistCommitsForChannel channel commits now
          store).2).messageCount = 0 := by
  have hpres : ∀ c ∈ commits, isMsgCommit c = true →
      (((persistCommitsForChannel channel commits now
        store).2).messages (msgId c)).isSome = true := by
    intro c hc hm
    rw [persist_messages_eq]
    exact foldl_messages_present channel now commits _ c hc hm
  exact foldl_messages_noop channel now commits _ hpres

end Crdt
namespace Crdt

theorem persist_store_idempotent (channel : Channel)
    (commits : List CommitSnapshot) (now : Nat) (store : SqliteStore) :
    (persistCommitsForChannel channel commits now
        (persistCommitsForChannel channel commits now store).2).2 =
      (persistCommitsForChannel channel commits now store).2 := by
  have hdf1 := foldl_docFields channel now commits
    { messageCount := 0, documentCount := 0
      latestActivity := channel.lastModified
      latestDocumentTimestamp := 0, latestDocumentHash := none
      latestDocumentContent := "", store := store }
  have hdf2 := foldl_docFields channel now commits
    { messageCount := 0, documentCount := 0
      latestActivity := channel.lastModified
      latestDocumentTimestamp := 0, latestDocumentHash := none
      latestDocumentContent := ""
      store := (persistCommitsForChannel channel commits now store).2 }
  have hs1 : (persistCommitsForChannel channel commits now store).2 =
      finalizeStore channel now (ingestLoop channel now commits store) :=
    persist_snd channel commits now store
  have hs2 : (persistCommitsForChannel channel commits now
      (persistCommitsForChannel channel commits now store).2).2 =
      finalizeStore channel now (ingestLoop channel now commits
        (persistCommitsForChannel channel commits now store).2) :=
    persist_snd channel commits now _
  have hcontent :
      (ingestLoop channel now commits
        (persistCommitsForChannel channel commits now
          store).2).latestDocumentContent =
      (ingestLoop channel now commits store).latestDocumentContent := by
    have h1 : (ingestLoop channel now commits store).latestDocumentContent =
        ((commits.filter isDocCommit).getLast?.map commitContent).getD "" :=
      hdf1.1.1
    have h2 : (ingestLoop channel now commits
        (persistCommitsForChannel channel commits now
          store).2).latestDocumentContent =
        ((commits.filter isDocCommit).getLast?.map commitContent).getD "" :=
      hdf2.1.1
    rw [h1, h2]
  have hhash :
      (ingestLoop channel now commits
        (persistCommitsForChannel channel commits now
          store).2).latestDocumentHash =
      (ingestLoop channel now commits store).latestDocumentHash := by
    have h1 : (ingestLoop channel now commits store).latestDocumentHash =
        ((commits.filter isDocCommit).getLast?.map
          (fun d => some d.hash)).getD none := hdf1.1.2
    have h2 : (ingestLoop channel now commits
        (persistCommitsForChannel channel commits now
          store).2).latestDocumentHash =
        ((commits.filter isDocCommit).getLast?.map
          (fun d => some d.hash)).getD none := hdf2.1.2
    rw [h1, h2]
  have hts :
      (ingestLoop channel now commits
        (persistCommitsForChannel channel commits now
          store).2).latestDocumentTimestamp =
      (ingestLoop channel now commits store).latestDocumentTimestamp := by
    have h1 : (ingestLoop channel now commits store).latestDocumentTimestamp =
        (commits.filter isDocCommit).foldl
          (fun acc c => max acc (commitTimestamp now c)) 0 := hdf1.2.1
    have h2 : (ingestLoop channel now commits
        (persistCommitsForChannel channel commits now
          store).2).latestDocumentTimestamp =
        (commits.filter isDocCommit).foldl
          (fun acc c => max acc (commitTimestamp now c)) 0 := hdf2.2.1
    rw [h1, h2]
  have hcnt :
      (ingestLoop channel now commits
        (persistCommitsForChannel channel commits now
          store).2).documentCount =
      (ingestLoop channel now commits store).documentCount := by
    have h1 : (ingestLoop channel now commits store).documentCount =
        0 + (commits.filter isDocCommit).length := hdf1.2.2
    have h2 : (ingestLoop channel now commits
        (persistCommitsForChannel channel commits now
          store).2).documentCount =
        0 + (commits.filter isDocCommit).length := hdf2.2.2
    rw [h1, h2]
  have hla :
      (ingestLoop channel now commits
        (persistCommitsForChannel channel commits now
          store).2).latestActivity =
      (ingestLoop channel now commits store).latestActivity := by
    have h1 : (ingestLoop channel now commits store).latestActivity =
        commits.foldl (activityStep now) channel.lastModified :=
      foldl_activity channel now commits _
    have h2 : (ingestLoop channel now commits
        (persistCommitsForChannel channel commits now
          store).2).latestActivity =
        commits.foldl (activityStep now) channel.lastModified :=
      foldl_activity channel now commits _
    rw [h1, h2]
  have hsnap : snapshotOf channel now
      (ingestLoop channel now commits
        (persistCommitsForChannel channel commits now store).2) =
      snapshotOf channel now (ingestLoop channel now commits store) := by
    unfold snapshotOf
    rw [hcontent, hhash, hts]
  apply sqliteStore_ext
  · -- messages
    rw [hs2, finalizeStore_messages]
    exact (second_pass_loop_noop_messages channel commits now store).1
  · -- channelDocuments
    rw [hs2, finalizeStore_channelDocuments, hcnt, hsnap]
    have hcd2 : (ingestLoop channel now commits
        (persistCommitsForChannel channel commits now
          store).2).store.channelDocuments =
        (persistCommitsForChannel channel commits now
          store).2.channelDocuments :=
      (foldl_store_fixed channel now commits _).1
    have hcd1 : (ingestLoop channel now commits store).store.channelDocuments =
        store.channelDocuments :=
      (foldl_store_fixed channel now commits _).1
    rw [hcd2]
    by_cases hpos : 0 < (ingestLoop channel now commits store).documentCount
    · rw [if_pos hpos]
      have hval : (persistCommitsForChannel channel commits now
          store).2.channelDocuments =
          fun k => if k = channel.id then
            some (snapshotOf channel now (ingestLoop channel now commits store))
          else store.channelDocuments k := by
        rw [hs1, finalizeStore_channelDocuments, if_pos hpos, hcd1]
      funext k
      by_cases hk : k = channel.id
      · rw [hval]
        simp [hk]
      · rw [hval]
        simp [hk]
    · rw [if_neg hpos]
  · -- documentCommits
    rw [hs2, finalizeStore_docCommits]
    have hd1 : (persistCommitsForChannel channel commits now
        store).2.documentCommits =
        (ingestLoop channel now commits store).store.documentCommits := by
      rw [hs1, finalizeStore_docCommits]
    funext k
    have hchar2 : (ingestLoop channel now commits
        (persistCommitsForChannel channel commits now
          store).2).store.documentCommits k =
        ((commits.filter (fun c =>
            isDocCommit c && decide (k = (channel.id, c.hash)))).getLast?.map
          (fun c => some (docEntryOf channel now c))).getD
          ((persistCommitsForChannel channel commits now
            store).2.documentCommits k) :=
      foldl_docCommits channel now commits _ k
    have hchar1 : (ingestLoop channel now commits store).store.documentCommits
        k =
        ((commits.filter (fun c =>
            isDocCommit c && decide (k = (channel.id, c.hash)))).getLast?.map
          (fun c => some (docEntryOf channel now c))).getD
          (store.documentCommits k) :=
      foldl_docCommits channel now commits _ k
    rw [hchar2, hd1, hchar1]
    cases h : (commits.filter (fun c =>
        isDocCommit c && decide (k = (channel.id, c.hash)))).getLast? <;>
      simp [h]
  · -- channelLastModified
    rw [hs2, finalizeStore_channelLastModified, hla]
    have hclm2 : (ingestLoop channel now commits
        (persistCommitsForChannel channel commits now
          store).2).store.channelLastModified =
        (persistCommitsForChannel channel commits now
          store).2.channelLastModified :=
      (foldl_store_fixed channel now commits _).2
    have hclm1 : (ingestLoop channel now commits
        store).store.channelLastModified = store.channelLastModified :=
      (foldl_store_fixed channel now commits _).2
    rw [hclm2]
    by_cases hmove : (ingestLoop channel now commits store).latestActivity ≠
        channel.lastModified
    · rw [if_pos hmove]
      have hval : (persistCommitsForChannel channel commits now
          store).2.channelLastModified =
          fun k => if k = channel.id then
            some (ingestLoop channel now commits store).latestActivity
          else store.channelLastModified k := by
        rw [hs1, finalizeStore_channelLastModified, if_pos hmove, hclm1]
      funext k
      by_cases hk : k = channel.id
      · rw [hval]
        simp [hk]
      · rw [hval]
        simp [hk]
    · rw [if_neg hmove]

end Crdt
namespace Crdt

theorem persist_duplicate_message_once (channel : Channel) (now : Nat)
    (store : SqliteStore) (commitA : CommitSnapshot)
    (hmsg : isMsgCommit commitA = true)
    (hfresh : store.messages (msgId commitA) = none) :
    (persistCommitsForChannel channel [commitA, commitA] now
      store).1.messageCount = 1 := by
  rw [persist_fst]
  have st0eq : ingestLoop channel now [commitA, commitA] store =
      processCommit channel now
        (processCommit channel now
          { messageCount := 0, documentCount := 0
            latestActivity := channel.lastModified
            latestDocumentTimestamp := 0, latestDocumentHash := none
            latestDocumentContent := "", store := store } commitA) commitA :=
    rfl
  set st0 : IngestState :=
    { messageCount := 0, documentCount := 0
      latestActivity := channel.lastModified
      latestDocumentTimestamp := 0, latestDocumentHash := none
      latestDocumentContent := "", store := store } with hst0
  have hsave1 : saveMessage st0.store (msgRecordOf channel now commitA) =
      ({ st0.store with
          messages := fun k =>
            if k = msgId commitA then some (msgRecordOf channel now commitA)
            else st0.store.messages k }, true) := by
    unfold saveMessage
    have hf : st0.store.messages (msgRecordOf channel now commitA).id = none :=
      hfresh
    rw [hf]
    rfl
  have hstep1 : processCommit channel now st0 commitA =
      { st0 with
        latestActivity := max st0.latestActivity (commitTimestamp now commitA)
        store := { st0.store with
          messages := fun k =>
            if k = msgId commitA then some (msgRecordOf channel now commitA)
            else st0.store.messages k }
        messageCount := 1 } := by
    rw [processCommit_msg channel now st0 commitA hmsg, hsave1]
    rfl
  have hsave2 : (saveMessage (processCommit channel now st0 commitA).store
      (msgRecordOf channel now commitA)).2 = false := by
    rw [hstep1]
    unfold saveMessage
    have hidq : (msgRecordOf channel now commitA).id = msgId commitA := rfl
    simp [hidq]
  rw [st0eq, processCommit_msg channel now _ commitA hmsg]
  unfold resultOf
  simp only [hsave2, if_false]
  rw [hstep1]
  rfl

end Crdt
namespace Crdt

/-- C1 (counterexample): in a batch whose max-timestamp document commit
comes first, the stored snapshot takes content and hash from the *last*
document commit in batch order ("A"/"h1") while `updatedAt` is the max
timestamp (2) — not all three from the max-timestamp commit ("B"/"h2"). -/
theorem persist_snapshot_not_from_max_timestamp :
    (persistCommitsForChannel ⟨"chan", "doc", 0⟩
        [mkDocCommit "h2" "B" 2, mkDocCommit "h1" "A" 1] 99
        emptyStore).2.channelDocuments "chan" =
      some { channelId := "chan", content := "A", updatedAt := 2
             latestCommitHash := some "h1" } ∧
      commitTimestamp 99 (mkDocCommit "h2" "B" 2) = 2 ∧
      commitTimestamp 99 (mkDocCommit "h1" "A" 1) = 1 ∧
      commitContent (mkDocCommit "h2" "B" 2) = "B" ∧
      mkDocCommit "h2" "B" 2 ∈
        [mkDocCommit "h2" "B" 2, mkDocCommit "h1" "A" 1] ∧
      ("A" : String) ≠ "B" ∧ (some "h1" : Option String) ≠ some "h2" := by
  refine ⟨by decide, by decide, by decide, by decide, by decide, by decide,
    by decide⟩

/-- C1 (amended): for every batch containing at least one valid document
payload, ingest overwrites the channel's DocumentSnapshot; its content
and latestCommitHash come from the **last** document commit in the
batch's order, and its updatedAt is the maximal resolved timestamp over
the batch's document commits (`Date.now()` when that maximum is 0). -/
theorem persist_snapshot_from_last_doc (channel : Channel)
    (commits : List CommitSnapshot) (now : Nat) (store : SqliteStore)
    (lastDoc : CommitSnapshot)
    (h : (commits.filter isDocCommit).getLast? = some lastDoc) :
    (persistCommitsForChannel channel commits now store).2.channelDocuments
        channel.id =
      some
        { channelId := channel.id
          content := commitContent lastDoc
          updatedAt :=
            if (commits.filter isDocCommit).foldl
                (fun acc c => max acc (commitTimestamp now c)) 0 = 0 then
              now
            else
              (commits.filter isDocCommit).foldl
                (fun acc c => max acc (commitTimestamp now c)) 0
          latestCommitHash := some lastDoc.hash } ∧
      (persistCommitsForChannel channel commits now
          store).1.latestDocumentContent = commitContent lastDoc ∧
      (persistCommitsForChannel channel commits now
          store).1.latestDocumentHash = some lastDoc.hash ∧
      (persistCommitsForChannel channel commits now
          store).1.latestDocumentTimestamp =
        (commits.filter isDocCommit).foldl
          (fun acc c => max acc (commitTimestamp now c)) 0 :=
  persist_snapshot_from_last_doc_core channel commits now store lastDoc h

/-- Witness for C1's amended theorem on a concrete two-commit batch. -/
theorem persist_snapshot_from_last_doc_witness :
    (([mkDocCommit "h1" "A" 1, mkDocCommit "h2" "B" 2].filter
        isDocCommit).getLast? = some (mkDocCommit "h2" "B" 2)) ∧
      ((persistCommitsForChannel ⟨"chan", "doc", 0⟩
          [mkDocCommit "h1" "A" 1, mkDocCommit "h2" "B" 2] 99
          emptyStore).2.channelDocuments "chan" =
        some
          { channelId := "chan"
            content := commitContent (mkDocCommit "h2" "B" 2)
            updatedAt :=
              if ([mkDocCommit "h1" "A" 1, mkDocCommit "h2" "B" 2].filter
                  isDocCommit).foldl
                  (fun acc c => max acc (commitTimestamp 99 c)) 0 = 0 then
                99
              else
                ([mkDocCommit "h1" "A" 1, mkDocCommit "h2" "B" 2].filter
                  isDocCommit).foldl
                  (fun acc c => max acc (commitTimestamp 99 c)) 0
            latestCommitHash := some (mkDocCommit "h2" "B" 2).hash } ∧
        (persistCommitsForChannel ⟨"chan", "doc", 0⟩
            [mkDocCommit "h1" "A" 1, mkDocCommit "h2" "B" 2] 99
            emptyStore).1.latestDocumentContent =
          commitContent (mkDocCommit "h2" "B" 2) ∧
        (persistCommitsForChannel ⟨"chan", "doc", 0⟩
            [mkDocCommit "h1" "A" 1, mkDocCommit "h2" "B" 2] 99
            emptyStore).1.latestDocumentHash =
          some (mkDocCommit "h2" "B" 2).hash ∧
        (persistCommitsForChannel ⟨"chan", "doc", 0⟩
            [mkDocCommit "h1" "A" 1, mkDocCommit "h2" "B" 2] 99
            emptyStore).1.latestDocumentTimestamp =
          ([mkDocCommit "h1" "A" 1, mkDocCommit "h2" "B" 2].filter
            isDocCommit).foldl
            (fun acc c => max acc (commitTimestamp 99 c)) 0) :=
  ⟨rfl,
    persist_snapshot_from_last_doc ⟨"chan", "doc", 0⟩
      [mkDocCommit "h1" "A" 1, mkDocCommit "h2" "B" 2] 99 emptyStore
      (mkDocCommit "h2" "B" 2) rfl⟩

/-- C2 (counterexample): the second pass over a batch holding one valid
document commit reports `documentCount = 1`, not 0 — `documentCount`
counts processed document payloads, not newly inserted rows. -/
theorem persist_second_pass_documentCount_nonzero :
    (persistCommitsForChannel ⟨"chan", "doc", 0⟩ [mkDocCommit "h1" "A" 1] 9
        (persistCommitsForChannel ⟨"chan", "doc", 0⟩ [mkDocCommit "h1" "A" 1]
          9 emptyStore).2).1.documentCount = 1 ∧ (1 : Nat) ≠ 0 :=
  ⟨by decide, by decide⟩

/-- C2 (amended): re-ingesting the same commit list leaves the stored
rows identical and the second pass's `messageCount` is 0, while its
`documentCount` equals the number of valid document commits in the batch
(it is not a new-row count); and ingesting `[commitA, commitA]` for a
fresh valid message commit yields `messageCount = 1`. -/
theorem persist_idempotent (channel : Channel)
    (commits : List CommitSnapshot) (now : Nat) (store : SqliteStore)
    (commitA : CommitSnapshot) (hmsg : isMsgCommit commitA = true)
    (hfresh : store.messages (msgId commitA) = none) :
    (persistCommitsForChannel channel commits now
        (persistCommitsForChannel channel commits now store).2).2 =
      (persistCommitsForChannel channel commits now store).2 ∧
      (persistCommitsForChannel channel commits now
        (persistCommitsForChannel channel commits now
          store).2).1.messageCount = 0 ∧
      (persistCommitsForChannel channel commits now
        (persistCommitsForChannel channel commits now
          store).2).1.documentCount = (commits.filter isDocCommit).length ∧
      (persistCommitsForChannel channel [commitA, commitA] now
        store).1.messageCount = 1 := by
  refine ⟨persist_store_idempotent channel commits now store, ?_, ?_,
    persist_duplicate_message_once channel now store commitA hmsg hfresh⟩
  · rw [persist_fst]
    exact (second_pass_loop_noop_messages channel commits now store).2
  · rw [persist_fst]
    have hcount : (ingestLoop channel now commits
        (persistCommitsForChannel channel commits now
          store).2).documentCount =
        0 + (commits.filter isDocCommit).length :=
      (foldl_docFields channel now commits
        { messageCount := 0, documentCount := 0
          latestActivity := channel.lastModified
          latestDocumentTimestamp := 0, latestDocumentHash := none
          latestDocumentContent := ""
          store := (persistCommitsForChannel channel commits now
            store).2 }).2.2
    show (ingestLoop channel now commits
      (persistCommitsForChannel channel commits now
        store).2).documentCount = (commits.filter isDocCommit).length
    rw [hcount]
    exact Nat.zero_add _

/-- Witness for C2's amended theorem: one document commit re-ingested,
and a fresh duplicated message commit. -/
theorem persist_idempotent_witness :
    isMsgCommit (mkMsgCommit "hA" "hi" 5) = true ∧
      emptyStore.messages (msgId (mkMsgCommit "hA" "hi" 5)) = none ∧
      ((persistCommitsForChannel ⟨"chan", "doc", 0⟩ [mkDocCommit "h1" "A" 1] 9
          (persistCommitsForChannel ⟨"chan", "doc", 0⟩
            [mkDocCommit "h1" "A" 1] 9 emptyStore).2).2 =
        (persistCommitsForChannel ⟨"chan", "doc", 0⟩ [mkDocCommit "h1" "A" 1]
          9 emptyStore).2 ∧
        (persistCommitsForChannel ⟨"chan", "doc", 0⟩ [mkDocCommit "h1" "A" 1]
          9
          (persistCommitsForChannel ⟨"chan", "doc", 0⟩
            [mkDocCommit "h1" "A" 1] 9 emptyStore).2).1.messageCount = 0 ∧
        (persistCommitsForChannel ⟨"chan", "doc", 0⟩ [mkDocCommit "h1" "A" 1]
          9
          (persistCommitsForChannel ⟨"chan", "doc", 0⟩
            [mkDocCommit "h1" "A" 1] 9 emptyStore).2).1.documentCount =
          ([mkDocCommit "h1" "A" 1].filter isDocCommit).length ∧
        (persistCommitsForChannel ⟨"chan", "doc", 0⟩
          [mkMsgCommit "hA" "hi" 5, mkMsgCommit "hA" "hi" 5] 9
          emptyStore).1.messageCount = 1) :=
  ⟨by decide, rfl,
    persist_idempotent ⟨"chan", "doc", 0⟩ [mkDocCommit "h1" "A" 1] 9
      emptyStore (mkMsgCommit "hA" "hi" 5) (by decide) rfl⟩

end Crdt
